import Mathlib

/-!
Verification of the TRACE shop-agent core (demand forecasting and
recommendation orchestration) against its specification.

The Node/Express source is shallowly embedded: JavaScript numbers are
modelled as exact rationals (`ℚ`), JavaScript integers as `ℤ`/`ℕ`,
nullable values as `Option`, and external capability calls (LLM parsing,
LLM query planning, LLM ranking, catalog search, web search) as explicit
parameters carrying the capability's response.  Presentation-only fields
that no property mentions (external search links, echoed raw results)
are omitted from the records.
-/

namespace Trace

/-- JavaScript `Math.round`: nearest integer, ties toward positive infinity. -/
def jsRound (x : ℚ) : ℤ := ⌊x + 1/2⌋

/-! ### Price extraction (`parsePriceFromText`, server.js lines 21–28)

The regex `\$[\d,]+(?:\.\d{2})?` scans for the first `$` that is followed
by at least one digit or comma, takes the maximal run of digits/commas,
then an optional `.dd` fraction; `$` and `,` are stripped and the rest is
parsed as a decimal number, returned only when finite and positive. -/

/-- A character matched by the regex class `[\d,]`. -/
def isPriceChar (c : Char) : Bool := c.isDigit || c = ','

/-- Decimal value of a digit run (the effect of `parseFloat` on the digits). -/
def digitsToNat (ds : List Char) : ℕ :=
  ds.foldl (fun n c => 10 * n + (c.toNat - 48)) 0

/-- Parse the matched text that follows a `$` whose digit/comma run is
nonempty: strip commas, read the integer digits and the optional
two-digit fraction, and keep the result only when it is positive. -/
def priceValue (cs : List Char) : Option ℚ :=
  let run := cs.takeWhile isPriceChar
  let rest := cs.drop run.length
  let digits := run.filter (fun c => c.isDigit)
  match rest with
  | '.' :: d1 :: d2 :: _ =>
    if d1.isDigit && d2.isDigit then
      let v : ℚ := (digitsToNat digits : ℚ) + (digitsToNat [d1, d2] : ℚ) / 100
      if 0 < v then some v else none
    else
      if digits.isEmpty then none
      else
        let v : ℚ := (digitsToNat digits : ℚ)
        if 0 < v then some v else none
  | _ =>
    if digits.isEmpty then none
    else
      let v : ℚ := (digitsToNat digits : ℚ)
      if 0 < v then some v else none

/-- Scan for the first regex match: a `$` immediately followed by at least
one digit or comma.  A `$` with no such run is skipped, as the regex
engine resumes scanning after it. -/
def findPrice : List Char → Option ℚ
  | [] => none
  | c :: rest =>
    if c = '$' && !(rest.takeWhile isPriceChar).isEmpty then priceValue rest
    else findPrice rest

/-- Source `parsePriceFromText`: first `$amount` in the text, as a positive rational. -/
def parsePriceFromText (s : String) : Option ℚ := findPrice s.data

/-! ### Data model -/

/-- A web-search fallback result (`runExternalSearch` output shape). -/
structure RawResult where
  title : String
  link : String
  snippet : String
  price : Option String
  deriving DecidableEq, Repr

/-- A WebShop catalog search result. -/
structure SearchResult where
  asin : String
  product_name : String
  price : Option ℚ
  category : String
  link : String
  deriving DecidableEq, Repr

/-- An item chosen by the Selector (ranked or fallback path). -/
structure SelectedItem where
  asin : String
  product_name : String
  quantity : ℤ
  unit_price : ℚ
  reason : String
  link : String
  deriving DecidableEq, Repr

/-- An item produced by `callGrokParseItems` (the extraction capability). -/
structure ParsedItem where
  name : String
  category : String
  daily_usage : ℚ
  unit : String
  context : String
  deriving DecidableEq, Repr

/-- A `ParsedItem` with demand-forecast fields added by `forecastDemand`. -/
structure ForecastedItem extends ParsedItem where
  horizon_days : ℕ
  base_demand : ℤ
  safety_stock : ℤ
  forecasted_units : ℤ
  deriving DecidableEq, Repr

/-- An allocation for a query with no catalog hits (`buildUnfoundItems`). -/
structure UnfoundItem where
  query : String
  product_name : String
  unit_price : Option ℚ
  quantity : ℤ
  line_total : Option ℚ
  deriving DecidableEq, Repr

/-! ### Forecaster (`holtForecast`, server.js lines 220–232) -/

/-- One iteration of the smoothing loop body:
`L = α·x + (1−α)·(L+b); b = β·(L−LPrev) + (1−β)·b`. -/
def holtStep (alpha beta : ℚ) (Lb : ℚ × ℚ) (x : ℚ) : ℚ × ℚ :=
  let Lnew := alpha * x + (1 - alpha) * (Lb.1 + Lb.2)
  (Lnew, beta * (Lnew - Lb.1) + (1 - beta) * Lb.2)

/-- Source `holtForecast`: Holt double exponential smoothing.  Returns the
forecast list together with the final level and trend. -/
def holtForecast (series : List ℚ) (alpha beta : ℚ) (horizon : ℕ) :
    List ℤ × ℚ × ℚ :=
  match series with
  | [] => ([], 0, 0)
  | s0 :: rest =>
    let b0 : ℚ := match rest with | [] => 0 | s1 :: _ => s1 - s0
    let Lb := rest.foldl (holtStep alpha beta) (s0, b0)
    ((List.range horizon).map (fun k => max 0 (jsRound (Lb.1 + (k + 1 : ℕ) * Lb.2))),
      Lb.1, Lb.2)

/-- Modelled from the spec: initial trend `b₀ = series[1]−series[0]` when the
series has at least two points, else `0`. -/
def specInitTrend (s0 : ℚ) (rest : List ℚ) : ℚ :=
  match rest with | [] => 0 | s1 :: _ => s1 - s0

/-- Modelled from the spec: consume each subsequent observation with the
level/trend update recurrence, starting from `(L₀, b₀)`. -/
def specSmooth (alpha beta : ℚ) : ℚ × ℚ → List ℚ → ℚ × ℚ
  | Lb, [] => Lb
  | Lb, x :: xs =>
    specSmooth alpha beta
      (alpha * x + (1 - alpha) * (Lb.1 + Lb.2),
       beta * ((alpha * x + (1 - alpha) * (Lb.1 + Lb.2)) - Lb.1) + (1 - beta) * Lb.2) xs

/-- Modelled from the spec: the Holt reference definition (§4.1) — empty
series gives `([], 0, 0)`; otherwise initialize, smooth, and emit forecast
step `k = max(0, round(L + k·b))` for `k = 1..H`. -/
def specHolt (series : List ℚ) (alpha beta : ℚ) (horizon : ℕ) :
    List ℤ × ℚ × ℚ :=
  match series with
  | [] => ([], 0, 0)
  | s0 :: rest =>
    let Lb := specSmooth alpha beta (s0, specInitTrend s0 rest) rest
    ((List.range horizon).map (fun k => max 0 (jsRound (Lb.1 + (k + 1 : ℕ) * Lb.2))),
      Lb.1, Lb.2)

/-! ### Reorder projection (`GET /api/dashboard/forecast`, lines 278–281) -/

/-- JavaScript `Array.prototype.findIndex` specialised to the predicate
`f <= reorderPoint`, returning `none` instead of `-1`. -/
def findIndexLE (reorderPoint : ℤ) : List ℤ → Option ℕ
  | [] => none
  | x :: xs =>
    if x ≤ reorderPoint then some 0
    else (findIndexLE reorderPoint xs).map (· + 1)

/-- The `days_until_reorder` computation of the dashboard forecast handler. -/
def daysUntilReorder (forecast : List ℤ) (reorderPoint : ℤ) (trend : ℚ) :
    Option ℕ :=
  if 0 < reorderPoint ∧ trend < 0 then
    match findIndexLE reorderPoint forecast with
    | some i => some (i + 1)
    | none => none
  else none

/-! ### Demand Estimator (`forecastDemand`, lines 373–386) -/

/-- Constant `SAFETY_STOCK_MULTIPLIER = 1.20`. -/
def SAFETY_STOCK_MULTIPLIER : ℚ := 6/5

/-- Source `forecastDemand`: per item, `base_demand = ceil(daily_usage·horizon)`,
`safety_stock = ceil(daily_usage·horizon·0.20)`,
`forecasted_units = ceil(daily_usage·horizon·1.20)`. -/
def forecastDemand (parsedItems : List ParsedItem) (horizonDays : ℕ) :
    List ForecastedItem :=
  parsedItems.map (fun item =>
    let baseDemand : ℚ := item.daily_usage * horizonDays
    { toParsedItem := item
      horizon_days := horizonDays
      base_demand := ⌈baseDemand⌉
      safety_stock := ⌈baseDemand * (SAFETY_STOCK_MULTIPLIER - 1)⌉
      forecasted_units := ⌈baseDemand * SAFETY_STOCK_MULTIPLIER⌉ })

/-! ### Query Planner (`callGrokForSearchQueries` line 423–424 and the
`POST /api/recommend` fallback, lines 616–629)

The query-generation capability's raw `search_queries` array is a
parameter (`none` models a failed/unavailable capability call). -/

/-- JavaScript `String.prototype.trim`: drop whitespace from both ends. -/
def jsTrim (s : String) : String :=
  ⟨((s.data.dropWhile Char.isWhitespace).reverse.dropWhile Char.isWhitespace).reverse⟩

/-- The post-processing `queries.map(q => String(q).trim()).filter(Boolean)`
applied to the capability's raw query list. -/
def planFromCapability (raw : List String) : List String :=
  (raw.map jsTrim).filter (fun q => q ≠ "")

/-- The extraction-capability filter `items.filter(i => i.name && i.daily_usage > 0)`. -/
def parseItemsFilter (items : List ParsedItem) : List ParsedItem :=
  items.filter (fun i => i.name ≠ "" ∧ 0 < i.daily_usage)

/-- The handler's query planning: capability queries when the call
succeeded with a nonempty list, else forecasted item names when present,
else the raw prompt, else `"product"`. -/
def planQueries (capabilityRaw : Option (List String))
    (forecastedNames : List String) (prompt : String) : List String :=
  let fallback :=
    if forecastedNames ≠ [] then forecastedNames
    else if prompt ≠ "" then [prompt] else ["product"]
  match capabilityRaw with
  | some raw =>
    let qs := planFromCapability raw
    if qs ≠ [] then qs else fallback
  | none => fallback

/-! ### Search Dispatcher (`POST /api/recommend` loop, lines 636–651, and
`mergeSearchResults`, lines 445–451)

Each catalog call's outcome is a parameter paired with its query:
`none` models a failed call, `some rs` a call returning `rs`. -/

/-- The WebShop search loop: accumulates `(allResults, usedQueries,
unfoundQueries)` in query order.  A failed call contributes only to
`unfoundQueries`; a zero-result call contributes to `usedQueries` and
`unfoundQueries`; a productive call appends its results. -/
def dispatch : List (String × Option (List SearchResult)) →
    List SearchResult × List String × List String
  | [] => ([], [], [])
  | (q, resp) :: rest =>
    let acc := dispatch rest
    match resp with
    | some results =>
      if results.length > 0 then (results ++ acc.1, q :: acc.2.1, acc.2.2)
      else (acc.1, q :: acc.2.1, q :: acc.2.2)
    | none => (acc.1, acc.2.1, q :: acc.2.2)

/-- Inner loop of `mergeSearchResults`: keep a result when its `asin` is
truthy and not yet seen. -/
def mergeAux : List SearchResult → List String → List SearchResult
  | [], _ => []
  | r :: rest, seen =>
    if r.asin ≠ "" ∧ r.asin ∉ seen then r :: mergeAux rest (r.asin :: seen)
    else mergeAux rest seen

/-- Source `mergeSearchResults`: dedupe by `asin`, keep first occurrence,
preserve insertion order (the `Map` iteration order). -/
def mergeSearchResults (allResults : List SearchResult) : List SearchResult :=
  mergeAux allResults []

/-! ### Selector (`recommendFromWebShop`, lines 454–480) and the budget
default (`parseFloat(fundsCrypto) || 200`, lines 457 and 653)

`parseFloat` is a JavaScript builtin; its result is modelled as
`Option ℚ` (`none` for `NaN`).  `x || 200` replaces both `NaN` and `0`
with `200`. -/

/-- Expression `parseFloat(fundsCrypto) || 200`: the default applied to a failed or
zero parse.  Used identically at line 457 (Selector) and line 653
(handler `fundsNum`). -/
def fundsOrDefault (parsed : Option ℚ) : ℚ :=
  match parsed with
  | none => 200
  | some v => if v = 0 then 200 else v

/-- Line 653 of the handler: `const fundsNum = parseFloat(fundsCrypto) || 200`
— the budget value used for unfound-item allocation. -/
def fundsNum (parsed : Option ℚ) : ℚ :=
  match parsed with
  | none => 200
  | some v => if v = 0 then 200 else v

/-- Map one catalog result to a fallback recommendation item
(`quantity: 1`, `unit_price: r.price ?? 0`). -/
def toFallbackItem (r : SearchResult) : SelectedItem :=
  { asin := r.asin
    product_name := r.product_name
    quantity := 1
    unit_price := r.price.getD 0
    reason := "Found on WebShop (" ++ (if r.category ≠ "" then r.category else "product") ++ ")."
    link := r.link }

/-- The deterministic Selector fallback:
`results.slice(0, 8).map(...).filter(i => i.unit_price <= funds)`. -/
def fallbackItems (results : List SearchResult) (fundsInput : Option ℚ) :
    List SelectedItem :=
  ((results.take 8).map toFallbackItem).filter
    (fun i => i.unit_price ≤ fundsOrDefault fundsInput)

/-- Source `recommendFromWebShop`: when an API key is present, the pool is
nonempty, and the ranking capability returned a nonempty item list, its
items are returned unchanged (source `"grok"`); otherwise the
deterministic fallback applies (source `"webshop"`).  The capability
call is modelled by the `capabilityItems` parameter. -/
def recommendFromWebShop (hasKey : Bool)
    (capabilityItems : Option (List SelectedItem))
    (mergedResults : List SearchResult) (fundsInput : Option ℚ) :
    List SelectedItem × String :=
  if hasKey ∧ mergedResults.length > 0 then
    match capabilityItems with
    | some items =>
      if items.length > 0 then (items, "grok")
      else (fallbackItems mergedResults fundsInput, "webshop")
    | none => (fallbackItems mergedResults fundsInput, "webshop")
  else (fallbackItems mergedResults fundsInput, "webshop")

/-- The handler's total cost:
`items.reduce((sum, i) => sum + i.quantity * i.unit_price, 0)`. -/
def totalCost (items : List SelectedItem) : ℚ :=
  (items.map (fun i => (i.quantity : ℚ) * i.unit_price)).sum

/-! ### Unfound Resolver (`buildUnfoundItems`, lines 37–62) -/

/-- The price recovered for one unfound query:
`parsePriceFromText(first?.price) || parsePriceFromText(snippet) ||
parsePriceFromText(product_name)`, where `snippet = first?.snippet || ''`
and `product_name = first?.title || query`. -/
def recoveredPrice (search_results : List RawResult) (query : String) :
    Option ℚ :=
  let first := search_results.head?
  let product_name :=
    match first with
    | some f => if f.title ≠ "" then f.title else query
    | none => query
  let snippet := (first.map RawResult.snippet).getD ""
  (first.bind RawResult.price).bind parsePriceFromText
    <|> parsePriceFromText snippet <|> parsePriceFromText product_name

/-- The name reported for one unfound query (`first?.title || query`). -/
def unfoundName (search_results : List RawResult) (query : String) : String :=
  match search_results.head? with
  | some f => if f.title ≠ "" then f.title else query
  | none => query

/-- One iteration of the `buildUnfoundItems` loop: build the item and
update the shared `remaining` budget.  When a price is recovered,
`quantity = min(99, max(1, floor(remaining / price)))` and
`quantity * price` is debited whenever `quantity > 0` (which, due to the
clamp to a minimum of 1, always holds). -/
def buildStep (remaining : ℚ) (query : String)
    (search_results : List RawResult) : UnfoundItem × ℚ :=
  match recoveredPrice search_results query with
  | some p =>
    let q : ℤ := min 99 (max 1 ⌊remaining / p⌋)
    ({ query := query
       product_name := unfoundName search_results query
       unit_price := some p
       quantity := q
       line_total := some ((q : ℚ) * p) },
     if 0 < q then remaining - (q : ℚ) * p else remaining)
  | none =>
    ({ query := query
       product_name := unfoundName search_results query
       unit_price := none
       quantity := 1
       line_total := none }, remaining)

/-- The `buildUnfoundItems` loop over all unfound queries, threading the
shared remaining budget (`rawSearches[i] || []` is `headD []` on the
suffix of the raw-search list). -/
def buildUnfoundAux : List String → List (List RawResult) → ℚ →
    List UnfoundItem × ℚ
  | [], _, remaining => ([], remaining)
  | query :: qs, raws, remaining =>
    let step := buildStep remaining query (raws.headD [])
    let rest := buildUnfoundAux qs raws.tail step.2
    (step.1 :: rest.1, rest.2)

/-- Source `buildUnfoundItems`: the remaining pool starts at the given budget
when it is positive, else at `0`. -/
def buildUnfoundItems (unfoundQueries : List String)
    (rawSearches : List (List RawResult)) (budgetForQuantity : ℚ) :
    List UnfoundItem :=
  (buildUnfoundAux unfoundQueries rawSearches
    (if 0 < budgetForQuantity then budgetForQuantity else 0)).1

/-- The remaining pool after the whole `buildUnfoundItems` loop, starting
from pool value `r`. -/
def remainingAfter (qs : List String) (raws : List (List RawResult))
    (r : ℚ) : ℚ :=
  (buildUnfoundAux qs raws r).2

/-- The pool-safety condition of the amended C2: at every step, any
recovered price is at most the pool remaining at that step. -/
def poolSafe : List String → List (List RawResult) → ℚ → Bool
  | [], _, _ => true
  | q :: qs, raws, r =>
    (match recoveredPrice (raws.headD []) q with
     | none => true
     | some p => decide (p ≤ r)) &&
    poolSafe qs raws.tail (buildStep r q (raws.headD [])).2

/-! ### Payment Simulator (frontend `App.jsx`, lines 806–821) -/

/-- One row of the payment replay table. -/
structure PayStep where
  product_name : String
  quantity : ℤ
  unit_price : ℚ
  lineTotal : ℚ
  balanceAfter : ℚ
  deriving DecidableEq, Repr

/-- The `items.map(...)` over a mutable `runningBalance`: each step debits
`quantity * unit_price` and records the post-debit balance. -/
def paymentSteps : List SelectedItem → ℚ → List PayStep
  | [], _ => []
  | item :: rest, balance =>
    let lineTotal := (item.quantity : ℚ) * item.unit_price
    let balanceAfter := balance - lineTotal
    { product_name := item.product_name
      quantity := item.quantity
      unit_price := item.unit_price
      lineTotal := lineTotal
      balanceAfter := balanceAfter } :: paymentSteps rest balanceAfter

/-- The final `runningBalance` after all payment steps. -/
def runningAfter (items : List SelectedItem) (startBalance : ℚ) : ℚ :=
  items.foldl (fun b item => b - (item.quantity : ℚ) * item.unit_price) startBalance

/-- Total spent, `startBalance - runningBalance`. -/
def totalSpent (items : List SelectedItem) (startBalance : ℚ) : ℚ :=
  startBalance - runningAfter items startBalance

/-- The rendered ledger balances: step 0 shows the starting balance, then
each step's `balanceAfter`. -/
def ledgerBalances (items : List SelectedItem) (startBalance : ℚ) : List ℚ :=
  startBalance :: (paymentSteps items startBalance).map PayStep.balanceAfter

/-! ### Concrete fixtures used by counterexamples and witnesses -/

/-- Default `PayStep` used with `List.getD`. -/
def defaultPayStep : PayStep := ⟨"", 0, 0, 0, 0⟩

/-- A concrete pool of ten distinct catalog results, each priced 10. -/
def poolOfTen : List SearchResult :=
  (List.range 10).map (fun i =>
    { asin := "A" ++ toString i
      product_name := "item"
      price := some 10
      category := "tech"
      link := "shop" })

/-- Concrete parsed item of the §8 demand-estimator instance
(`daily_usage = 2`). -/
def demandItem : ParsedItem := ⟨"coffee beans", "food", 2, "bags", "daily restock"⟩

/-- The §8 instance's expected forecast record
(`base_demand = 60`, `safety_stock = 12`, `forecasted_units = 72`). -/
def demandForecastItem : ForecastedItem := ⟨demandItem, 30, 60, 12, 72⟩

/-- Concrete raw web result whose price field reads `$20.00`. -/
def rawPriced20 : RawResult := ⟨"Widget", "", "", some "$20.00"⟩

/-- Concrete raw web result whose snippet mentions `$30.00`. -/
def rawSnippet30 : RawResult := ⟨"Gadget", "", "sale $30.00 now", none⟩

/-! ## Helper lemmas -/

attribute [local semireducible] Rat.add Rat.mul Rat.inv Rat.sub Rat.ofScientific

lemma specSmooth_eq_foldl (alpha beta : ℚ) (xs : List ℚ) (Lb : ℚ × ℚ) :
    specSmooth alpha beta Lb xs = xs.foldl (holtStep alpha beta) Lb := by
  induction xs generalizing Lb with
  | nil => rfl
  | cons x xs ih => simp [specSmooth, List.foldl, holtStep, ih]

lemma findIndexLE_isSome_iff (rp : ℤ) (l : List ℤ) :
    (findIndexLE rp l).isSome = true ↔ ∃ x ∈ l, x ≤ rp := by
  induction l with
  | nil => simp [findIndexLE]
  | cons x xs ih =>
    by_cases h : x ≤ rp
    · simp [findIndexLE, h]
    · have hmap : ((findIndexLE rp xs).map (· + 1)).isSome = (findIndexLE rp xs).isSome := by
        cases findIndexLE rp xs <;> rfl
      simp [findIndexLE, h, hmap, ih]

lemma findIndexLE_spec (rp : ℤ) :
    ∀ (l : List ℤ) (i : ℕ), findIndexLE rp l = some i →
      i < l.length ∧ l.getD i 0 ≤ rp ∧ ∀ j < i, rp < l.getD j 0 := by
  intro l
  induction l with
  | nil => intro i h; simp [findIndexLE] at h
  | cons x xs ih =>
    intro i h
    by_cases hx : x ≤ rp
    · simp only [findIndexLE, if_pos hx, Option.some.injEq] at h
      subst h
      exact ⟨Nat.succ_pos _, hx, fun j hj => absurd hj (Nat.not_lt_zero j)⟩
    · simp only [findIndexLE, if_neg hx, Option.map_eq_some'] at h
      obtain ⟨i0, hi0, rfl⟩ := h
      obtain ⟨hlen, hle, hfirst⟩ := ih i0 hi0
      refine ⟨by simpa using Nat.succ_lt_succ hlen, by simpa using hle, ?_⟩
      intro j hj
      cases j with
      | zero => simpa using not_le.mp hx
      | succ j0 => simpa using hfirst j0 (Nat.lt_of_succ_lt_succ hj)

/-! ## Claim theorems -/

/-- C3: the Forecaster equals the stated Holt reference definition — an
empty series yields `([], 0, 0)`; a nonempty series is smoothed with the
level/trend recurrence from `L₀ = series[0]`, `b₀ = series[1] − series[0]`
(or `0`), and the forecast has length exactly the requested horizon with
`k`-th value `max(0, round(L + k·b))`, hence every value non-negative. -/
theorem holtForecast_matches_spec (series : List ℚ) (alpha beta : ℚ) (H : ℕ) :
    holtForecast series alpha beta H = specHolt series alpha beta H ∧
    (series = [] → holtForecast series alpha beta H = ([], 0, 0)) ∧
    (series ≠ [] → (holtForecast series alpha beta H).1.length = H) ∧
    (∀ x ∈ (holtForecast series alpha beta H).1, 0 ≤ x) := by
  refine ⟨?_, ?_, ?_, ?_⟩
  · cases series with
    | nil => rfl
    | cons s0 rest =>
      simp only [holtForecast, specHolt, specInitTrend, specSmooth_eq_foldl]
  · intro h; subst h; rfl
  · intro h
    cases series with
    | nil => exact absurd rfl h
    | cons s0 rest => simp [holtForecast]
  · intro x hx
    cases series with
    | nil => simp [holtForecast] at hx
    | cons s0 rest =>
      simp only [holtForecast, List.mem_map] at hx
      obtain ⟨k, _, rfl⟩ := hx
      exact le_max_left _ _

/-- Witness for C3 at the concrete series `[10, 8]` and the empty series. -/
theorem holtForecast_matches_spec_witness :
    (holtForecast [10, 8] (3/10) (1/10) 2).1.length = 2 ∧
    holtForecast [] (3/10) (1/10) 5 = ([], 0, 0) :=
  ⟨(holtForecast_matches_spec [10, 8] (3/10) (1/10) 2).2.2.1 (List.cons_ne_nil _ _),
   (holtForecast_matches_spec [] (3/10) (1/10) 5).2.1 rfl⟩

/-- C5: `days_until_reorder` is defined iff `reorder_point > 0`, the trend
is negative, and some forecast value within the horizon is at most the
reorder point; when defined it is the first such index plus one. -/
theorem daysUntilReorder_characterization (f : List ℤ) (rp : ℤ) (t : ℚ) :
    ((daysUntilReorder f rp t).isSome = true ↔
      0 < rp ∧ t < 0 ∧ ∃ x ∈ f, x ≤ rp) ∧
    (∀ d, daysUntilReorder f rp t = some d →
      ∃ i, d = i + 1 ∧ i < f.length ∧ f.getD i 0 ≤ rp ∧
        ∀ j < i, rp < f.getD j 0) := by
  constructor
  · by_cases hc : 0 < rp ∧ t < 0
    · simp only [daysUntilReorder, if_pos hc]
      cases hfi : findIndexLE rp f with
      | none =>
        simp only [Option.isSome_none, Bool.false_eq_true, false_iff]
        intro hex
        have := (findIndexLE_isSome_iff rp f).2 hex.2.2
        rw [hfi] at this
        simp at this
      | some i =>
        simp only [Option.isSome_some, true_iff]
        refine ⟨hc.1, hc.2, ?_⟩
        have := (findIndexLE_isSome_iff rp f).1 (by rw [hfi]; rfl)
        exact this
    · simp only [daysUntilReorder, if_neg hc, Option.isSome_none,
        Bool.false_eq_true, false_iff]
      intro hex
      exact hc ⟨hex.1, hex.2.1⟩
  · intro d hd
    unfold daysUntilReorder at hd
    split at hd
    · cases hfi : findIndexLE rp f with
      | none => rw [hfi] at hd; exact absurd hd (by simp)
      | some i =>
        rw [hfi] at hd
        simp only [Option.some.injEq] at hd
        obtain ⟨hlen, hle, hfirst⟩ := findIndexLE_spec rp f i hfi
        exact ⟨i, hd.symm, hlen, hle, hfirst⟩
    · exact absurd hd (by simp)

/-- Witness for C5 at the concrete forecast `[10, 4]`, reorder point 5,
trend −1: the projection reports day 2. -/
theorem daysUntilReorder_characterization_witness :
    ∃ i, 2 = i + 1 ∧ i < ([10, 4] : List ℤ).length ∧
      ([10, 4] : List ℤ).getD i 0 ≤ 5 ∧ ∀ j < i, 5 < ([10, 4] : List ℤ).getD j 0 :=
  (daysUntilReorder_characterization [10, 4] 5 (-1)).2 2 (by decide)

lemma ceil_fifth (x : ℚ) : ⌈(⌈x⌉ : ℚ) * (1/5)⌉ = ⌈x * (1/5)⌉ := by
  have h5 : (0 : ℚ) < 5 := by norm_num
  rw [mul_one_div, mul_one_div]
  apply le_antisymm
  · rw [Int.ceil_le, div_le_iff₀ h5]
    have h2 : (⌈x⌉ : ℤ) ≤ ⌈x / 5⌉ * 5 := by
      rw [Int.ceil_le]
      push_cast
      exact (div_le_iff₀ h5).mp (Int.le_ceil (x / 5))
    exact_mod_cast h2
  · exact Int.ceil_le_ceil ((div_le_div_iff_of_pos_right h5).mpr (Int.le_ceil x))

/-- C4 (amended): the Demand Estimator returns
`base_demand = ceil(daily_usage × horizon)`,
`safety_stock = ceil(base_demand × 0.20)`, and
`forecasted_units = ceil(daily_usage × horizon × 1.20)`, which is at most
— but not always equal to — `base_demand + safety_stock`; the §8 instance
`daily_usage = 2`, `horizon = 30` yields `(60, 12, 72)` where the sum
decomposition does hold. -/
theorem forecastDemand_fields (items : List ParsedItem) (H : ℕ) :
    (∀ f ∈ forecastDemand items H,
      f.horizon_days = H ∧
      f.base_demand = ⌈f.daily_usage * (H : ℚ)⌉ ∧
      f.safety_stock = ⌈(f.base_demand : ℚ) * (1/5)⌉ ∧
      f.forecasted_units = ⌈f.daily_usage * (H : ℚ) * (6/5)⌉ ∧
      f.forecasted_units ≤ f.base_demand + f.safety_stock) ∧
    (forecastDemand [demandItem] 30).map
      (fun f => (f.base_demand, f.safety_stock, f.forecasted_units))
      = [(60, 12, 72)] := by
  constructor
  · intro f hf
    simp only [forecastDemand, List.mem_map] at hf
    obtain ⟨item, _, rfl⟩ := hf
    refine ⟨rfl, rfl, ?_, rfl, ?_⟩
    · show ⌈item.daily_usage * (H : ℚ) * (SAFETY_STOCK_MULTIPLIER - 1)⌉
        = ⌈(⌈item.daily_usage * (H : ℚ)⌉ : ℚ) * (1/5)⌉
      rw [ceil_fifth]
      norm_num [SAFETY_STOCK_MULTIPLIER]
    · show ⌈item.daily_usage * (H : ℚ) * SAFETY_STOCK_MULTIPLIER⌉
        ≤ ⌈item.daily_usage * (H : ℚ)⌉ + ⌈item.daily_usage * (H : ℚ) * (SAFETY_STOCK_MULTIPLIER - 1)⌉
      have hsplit : item.daily_usage * (H : ℚ) * SAFETY_STOCK_MULTIPLIER
          = item.daily_usage * (H : ℚ)
            + item.daily_usage * (H : ℚ) * (SAFETY_STOCK_MULTIPLIER - 1) := by
        unfold SAFETY_STOCK_MULTIPLIER
        ring
      rw [hsplit]
      exact Int.ceil_add_le _ _
  · decide

/-- Counterexample to C4 as stated: at `daily_usage = 1/2`, `horizon = 1`
the code yields `base_demand = 1`, `safety_stock = 1`, but
`forecasted_units = 1 ≠ 1 + 1`. -/
theorem forecastDemand_sum_mismatch_cex :
    (forecastDemand [⟨"half item", "", 1/2, "pcs", ""⟩] 1).map
        (fun f => (f.base_demand, f.safety_stock, f.forecasted_units)) = [(1, 1, 1)] ∧
    ¬ ∀ f ∈ forecastDemand [⟨"half item", "", 1/2, "pcs", ""⟩] 1,
        f.forecasted_units = f.base_demand + f.safety_stock := by
  constructor
  · decide
  · decide

/-- Witness for C4 at the §8 instance. -/
theorem forecastDemand_fields_witness :
    demandForecastItem.forecasted_units
      ≤ demandForecastItem.base_demand + demandForecastItem.safety_stock :=
  ((forecastDemand_fields [demandItem] 30).1 demandForecastItem (by decide)).2.2.2.2

lemma mergeAux_sublist :
    ∀ (rs : List SearchResult) (seen : List String), (mergeAux rs seen).Sublist rs := by
  intro rs
  induction rs with
  | nil => intro seen; simp [mergeAux]
  | cons r0 rest ih =>
    intro seen
    by_cases h : r0.asin ≠ "" ∧ r0.asin ∉ seen
    · simp only [mergeAux, if_pos h]
      exact (ih _).cons₂ r0
    · simp only [mergeAux, if_neg h]
      exact (ih seen).cons r0

lemma mergeAux_props :
    ∀ (rs : List SearchResult) (seen : List String), ∀ r ∈ mergeAux rs seen,
      r.asin ≠ "" ∧ r.asin ∉ seen ∧
        rs.find? (fun x => x.asin == r.asin) = some r := by
  intro rs
  induction rs with
  | nil => intro seen r hr; simp [mergeAux] at hr
  | cons r0 rest ih =>
    intro seen r hr
    by_cases h : r0.asin ≠ "" ∧ r0.asin ∉ seen
    · simp only [mergeAux, if_pos h, List.mem_cons] at hr
      rcases hr with rfl | hr
      · exact ⟨h.1, h.2, by
          rw [List.find?_cons_of_pos]
          exact beq_self_eq_true r.asin⟩
      · obtain ⟨hne, hnotin, hfind⟩ := ih (r0.asin :: seen) r hr
        have hne0 : r.asin ≠ r0.asin := fun hEq => hnotin (by rw [hEq]; exact List.mem_cons_self _ _)
        refine ⟨hne, fun hmem => hnotin (List.mem_cons_of_mem _ hmem), ?_⟩
        have hpred : (r0.asin == r.asin) = false := by
          simp only [beq_eq_false_iff_ne, ne_eq]
          exact fun hEq => hne0 hEq.symm
        simp only [List.find?, hpred, hfind]
    · simp only [mergeAux, if_neg h] at hr
      obtain ⟨hne, hnotin, hfind⟩ := ih seen r hr
      have hne0 : r0.asin ≠ r.asin := by
        rcases not_and_or.mp h with h0 | h0
        · intro hEq
          exact hne (by rw [← hEq, not_not.mp h0])
        · intro hEq
          exact hnotin (by rw [← hEq]; exact not_not.mp h0)
      refine ⟨hne, hnotin, ?_⟩
      have hpred : (r0.asin == r.asin) = false := by
        simp only [beq_eq_false_iff_ne, ne_eq]
        exact hne0
      simp only [List.find?, hpred, hfind]

lemma mergeAux_nodup :
    ∀ (rs : List SearchResult) (seen : List String),
      ((mergeAux rs seen).map SearchResult.asin).Nodup := by
  intro rs
  induction rs with
  | nil => intro seen; simp [mergeAux]
  | cons r0 rest ih =>
    intro seen
    by_cases h : r0.asin ≠ "" ∧ r0.asin ∉ seen
    · simp only [mergeAux, if_pos h, List.map_cons, List.nodup_cons]
      refine ⟨?_, ih _⟩
      intro hmem
      obtain ⟨r, hr, hEq⟩ := List.mem_map.mp hmem
      have := (mergeAux_props rest (r0.asin :: seen) r hr).2.1
      exact this (by rw [hEq]; exact List.mem_cons_self _ _)
    · simp only [mergeAux, if_neg h]
      exact ih seen

lemma mergeAux_mem_iff :
    ∀ (rs : List SearchResult) (seen : List String) (a : String), a ≠ "" → a ∉ seen →
      ((∃ r ∈ rs, r.asin = a) ↔ ∃ r ∈ mergeAux rs seen, r.asin = a) := by
  intro rs
  induction rs with
  | nil => intro seen a _ _; simp [mergeAux]
  | cons r0 rest ih =>
    intro seen a ha hseen
    by_cases h : r0.asin ≠ "" ∧ r0.asin ∉ seen
    · simp only [mergeAux, if_pos h]
      constructor
      · rintro ⟨r, hr, rfl⟩
        rcases List.mem_cons.mp hr with rfl | hr
        · exact ⟨r, List.mem_cons_self _ _, rfl⟩
        · by_cases hEq : r.asin = r0.asin
          · exact ⟨r0, List.mem_cons_self _ _, hEq.symm⟩
          · have hnot : r.asin ∉ r0.asin :: seen := by
              intro hmem
              rcases List.mem_cons.mp hmem with h1 | h1
              · exact hEq h1
              · exact hseen h1
            obtain ⟨r2, hr2, hr2a⟩ := (ih (r0.asin :: seen) r.asin ha hnot).mp ⟨r, hr, rfl⟩
            exact ⟨r2, List.mem_cons_of_mem _ hr2, hr2a⟩
      · rintro ⟨r, hr, rfl⟩
        rcases List.mem_cons.mp hr with rfl | hr
        · exact ⟨r, List.mem_cons_self _ _, rfl⟩
        · have hnot := (mergeAux_props rest (r0.asin :: seen) r hr).2.1
          obtain ⟨r2, hr2, hr2a⟩ := (ih (r0.asin :: seen) r.asin ha hnot).mpr ⟨r, hr, rfl⟩
          exact ⟨r2, List.mem_cons_of_mem _ hr2, hr2a⟩
    · simp only [mergeAux, if_neg h]
      have hne0 : r0.asin ≠ a := by
        rcases not_and_or.mp h with h0 | h0
        · intro hEq; exact ha (by rw [← hEq, not_not.mp h0])
        · intro hEq; exact hseen (hEq ▸ not_not.mp h0)
      constructor
      · rintro ⟨r, hr, rfl⟩
        rcases List.mem_cons.mp hr with rfl | hr
        · exact absurd rfl hne0
        · exact (ih seen r.asin ha hseen).mp ⟨r, hr, rfl⟩
      · rintro ⟨r, hr, rfl⟩
        obtain ⟨r2, hr2, hr2a⟩ := (ih seen r.asin ha hseen).mpr ⟨r, hr, rfl⟩
        exact ⟨r2, List.mem_cons_of_mem _ hr2, hr2a⟩

/-- C6 (amended): the merged pool is a subsequence of the combined list
(first-occurrence order preserved) containing exactly one entry per
distinct non-empty `product_id` — namely the first occurrence, with its
fields — while results whose `product_id` is empty are dropped. -/
theorem mergeSearchResults_dedup (rs : List SearchResult) :
    (mergeSearchResults rs).Sublist rs ∧
    ((mergeSearchResults rs).map SearchResult.asin).Nodup ∧
    (∀ a, a ≠ "" →
      ((∃ r ∈ rs, r.asin = a) ↔ ∃ r ∈ mergeSearchResults rs, r.asin = a)) ∧
    (∀ r ∈ mergeSearchResults rs,
      r.asin ≠ "" ∧ rs.find? (fun x => x.asin == r.asin) = some r) := by
  refine ⟨mergeAux_sublist rs [], mergeAux_nodup rs [], ?_, ?_⟩
  · intro a ha
    exact mergeAux_mem_iff rs [] a ha (List.not_mem_nil a)
  · intro r hr
    obtain ⟨h1, _, h3⟩ := mergeAux_props rs [] r hr
    exact ⟨h1, h3⟩

/-- Counterexample to C6 as stated: a combined list containing a result
with empty `product_id` has a distinct `product_id` (the empty one) with
no corresponding entry in the merged pool — the result is dropped. -/
theorem merge_drops_empty_asin_cex :
    (∃ r ∈ ([⟨"", "mystery", some 5, "c", "l"⟩] : List SearchResult), r.asin = "") ∧
    mergeSearchResults [⟨"", "mystery", some 5, "c", "l"⟩] = [] := by
  constructor
  · exact ⟨_, List.mem_singleton_self _, rfl⟩
  · rfl

/-- Witness for C6 at a concrete singleton pool with non-empty id. -/
theorem mergeSearchResults_dedup_witness :
    (∃ r ∈ ([⟨"B1", "x", some 3, "c", "l"⟩] : List SearchResult), r.asin = "B1") ↔
      ∃ r ∈ mergeSearchResults [⟨"B1", "x", some 3, "c", "l"⟩], r.asin = "B1" :=
  (mergeSearchResults_dedup [⟨"B1", "x", some 3, "c", "l"⟩]).2.2.1 "B1" (by decide)

lemma dispatch_append (a b : List (String × Option (List SearchResult))) :
    dispatch (a ++ b) = ((dispatch a).1 ++ (dispatch b).1,
      (dispatch a).2.1 ++ (dispatch b).2.1,
      (dispatch a).2.2 ++ (dispatch b).2.2) := by
  induction a with
  | nil => simp [dispatch]
  | cons qr rest ih =>
    obtain ⟨q, resp⟩ := qr
    cases resp with
    | none => simp [dispatch, ih]
    | some results =>
      by_cases h : results.length > 0
      · simp [dispatch, ih, h]
      · simp [dispatch, ih, h]

/-- C7 (amended): a failed catalog call and a zero-result call on the same
query produce the same combined results, the same merged pool, and the
same unfound set, with all remaining queries still dispatched — but the
query attribution differs: a zero-result query is recorded in
`usedQueries` while a failed query is omitted from it. -/
theorem dispatch_failure_isolation
    (pre post : List (String × Option (List SearchResult))) (q : String) :
    (dispatch (pre ++ (q, none) :: post)).1
      = (dispatch (pre ++ (q, some []) :: post)).1 ∧
    (dispatch (pre ++ (q, none) :: post)).2.2
      = (dispatch (pre ++ (q, some []) :: post)).2.2 ∧
    mergeSearchResults (dispatch (pre ++ (q, none) :: post)).1
      = mergeSearchResults (dispatch (pre ++ (q, some []) :: post)).1 ∧
    (dispatch (pre ++ (q, none) :: post)).2.1
      = (dispatch pre).2.1 ++ (dispatch post).2.1 ∧
    (dispatch (pre ++ (q, some []) :: post)).2.1
      = (dispatch pre).2.1 ++ q :: (dispatch post).2.1 := by
  have h1 : dispatch ((q, none) :: post)
      = ((dispatch post).1, (dispatch post).2.1, q :: (dispatch post).2.2) := by
    simp [dispatch]
  have h2 : dispatch ((q, some []) :: post)
      = ((dispatch post).1, q :: (dispatch post).2.1, q :: (dispatch post).2.2) := by
    simp [dispatch]
  rw [dispatch_append pre ((q, none) :: post), dispatch_append pre ((q, some []) :: post),
    h1, h2]
  exact ⟨rfl, rfl, rfl, rfl, rfl⟩

/-- Counterexample to C7 as stated: on query `"a"`, a failed call and a
zero-result call give different dispatcher outputs — the query
attribution (`usedQueries`) omits `"a"` in the failure case. -/
theorem dispatch_failure_vs_empty_cex :
    (dispatch [("a", none)]).2.1 = [] ∧
    (dispatch [("a", some [])]).2.1 = ["a"] ∧
    dispatch [("a", none)] ≠ dispatch [("a", some [])] := by
  refine ⟨rfl, rfl, ?_⟩
  decide

/-- C8 (amended): every planner path yields at least one query and every
query is a non-empty string (given the extraction contract that item
names are non-empty); the capability path additionally returns trims of
the capability's raw queries — but no path enforces the upper bound of
five, and the fallback paths do not trim. -/
theorem planQueries_nonempty (cap : Option (List String)) (names : List String)
    (prompt : String) (hnames : ∀ n ∈ names, n ≠ "") :
    1 ≤ (planQueries cap names prompt).length ∧
    (∀ q ∈ planQueries cap names prompt, q ≠ "") ∧
    (∀ raw, ∀ q ∈ planFromCapability raw, q ≠ "" ∧ ∃ r ∈ raw, q = jsTrim r) := by
  have capFacts : ∀ raw, ∀ q ∈ planFromCapability raw,
      q ≠ "" ∧ ∃ r ∈ raw, q = jsTrim r := by
    intro raw q hq
    simp only [planFromCapability, List.mem_filter, List.mem_map] at hq
    obtain ⟨⟨r, hr, rfl⟩, hne⟩ := hq
    exact ⟨by simpa using hne, r, hr, rfl⟩
  have fb1 : 1 ≤ (if names ≠ [] then names
      else if prompt ≠ "" then [prompt] else ["product"]).length := by
    by_cases hn : names ≠ []
    · simpa [hn] using List.length_pos.mpr hn
    · by_cases hp : prompt ≠ "" <;> simp [hn, hp]
  have fb2 : ∀ q ∈ (if names ≠ [] then names
      else if prompt ≠ "" then [prompt] else ["product"]), q ≠ "" := by
    by_cases hn : names ≠ []
    · simpa [hn] using hnames
    · by_cases hp : prompt ≠ "" <;> intro q hq <;> simp [hn, hp] at hq <;> subst hq
      · exact hp
      · simp
  cases cap with
  | none => exact ⟨fb1, fb2, capFacts⟩
  | some raw =>
    by_cases hcap : planFromCapability raw ≠ []
    · refine ⟨?_, ?_, capFacts⟩
      · simpa [planQueries, hcap] using List.length_pos.mpr hcap
      · intro q hq
        simp only [planQueries, if_pos hcap] at hq
        exact (capFacts raw q hq).1
    · refine ⟨?_, ?_, capFacts⟩
      · simpa [planQueries, hcap] using fb1
      · intro q hq
        simp only [planQueries, if_neg hcap] at hq
        exact fb2 q hq

/-- Counterexample to C8 as stated: six raw capability queries pass
through uncapped, and the raw-prompt fallback returns an untrimmed
query. -/
theorem planQueries_cap_and_trim_cex :
    (planQueries (some ["q1", "q2", "q3", "q4", "q5", "q6"]) [] "x").length = 6 ∧
    ¬ (planQueries (some ["q1", "q2", "q3", "q4", "q5", "q6"]) [] "x").length ≤ 5 ∧
    planQueries none [] " x " = [" x "] ∧ jsTrim " x " ≠ " x " := by
  refine ⟨?_, ?_, ?_, ?_⟩ <;> decide

/-- Witness for C8 at the name-fallback path with one non-empty name. -/
theorem planQueries_nonempty_witness :
    1 ≤ (planQueries none ["usb cable"] "").length :=
  (planQueries_nonempty none ["usb cable"] "" (by decide)).1

/-- C1 (amended): on the deterministic Selector fallback every selected
item has quantity 1 and unit price at most the budget, and at most eight
items are taken, so the total is at most eight times the budget — but the
sum itself is not checked against the budget; the capability path returns
the capability's items unchanged, and every fallback-sourced output
equals `fallbackItems`. -/
theorem fallback_items_per_item_budget (results : List SearchResult)
    (p : Option ℚ) (h : 0 ≤ fundsOrDefault p) :
    (∀ it ∈ fallbackItems results p,
      it.quantity = 1 ∧ it.unit_price ≤ fundsOrDefault p) ∧
    (fallbackItems results p).length ≤ 8 ∧
    totalCost (fallbackItems results p) ≤ 8 * fundsOrDefault p ∧
    (∀ hk cap, (recommendFromWebShop hk cap results p).2 = "webshop" →
      (recommendFromWebShop hk cap results p).1 = fallbackItems results p) := by
  have part1 : ∀ it ∈ fallbackItems results p,
      it.quantity = 1 ∧ it.unit_price ≤ fundsOrDefault p := by
    intro it hit
    simp only [fallbackItems, List.mem_filter, List.mem_map] at hit
    obtain ⟨⟨r, _, rfl⟩, hle⟩ := hit
    exact ⟨rfl, by simpa using hle⟩
  have part2 : (fallbackItems results p).length ≤ 8 := by
    calc (fallbackItems results p).length
        ≤ ((results.take 8).map toFallbackItem).length := List.length_filter_le _ _
      _ = (results.take 8).length := List.length_map _ _
      _ ≤ 8 := by rw [List.length_take]; exact min_le_left _ _
  refine ⟨part1, part2, ?_, ?_⟩
  · have hterm : ∀ x ∈ (fallbackItems results p).map
        (fun i => (i.quantity : ℚ) * i.unit_price), x ≤ fundsOrDefault p := by
      intro x hx
      obtain ⟨i, hi, rfl⟩ := List.mem_map.mp hx
      obtain ⟨hq, hle⟩ := part1 i hi
      rw [hq]
      simpa using hle
    calc totalCost (fallbackItems results p)
        ≤ ((fallbackItems results p).map
            (fun i => (i.quantity : ℚ) * i.unit_price)).length • fundsOrDefault p :=
          List.sum_le_card_nsmul _ _ hterm
      _ = ((fallbackItems results p).length : ℚ) * fundsOrDefault p := by
          rw [List.length_map, nsmul_eq_mul]
      _ ≤ 8 * fundsOrDefault p := by
          apply mul_le_mul_of_nonneg_right _ h
          exact_mod_cast part2
  · intro hk cap hsrc
    by_cases hcond : hk = true ∧ results.length > 0
    · simp only [recommendFromWebShop, if_pos hcond] at hsrc ⊢
      cases cap with
      | none => rfl
      | some items =>
        by_cases hlen : items.length > 0
        · simp [hlen] at hsrc
        · simp [hlen]
    · simp [recommendFromWebShop, hcond]

/-- Counterexample to C1 as stated: a pool of ten items priced 10 at
budget 50 makes the fallback select eight items for a total of 80,
exceeding the budget. -/
theorem fallback_total_exceeds_budget_cex :
    (recommendFromWebShop false none poolOfTen (some 50)).2 = "webshop" ∧
    totalCost (recommendFromWebShop false none poolOfTen (some 50)).1 = 80 ∧
    ¬ totalCost (recommendFromWebShop false none poolOfTen (some 50)).1
        ≤ fundsOrDefault (some 50) := by
  refine ⟨rfl, ?_, ?_⟩ <;> decide

/-- Witness for C1 at the concrete ten-item pool and budget 50. -/
theorem fallback_items_per_item_budget_witness :
    0 ≤ fundsOrDefault (some 50) ∧
    totalCost (fallbackItems poolOfTen (some 50)) ≤ 8 * fundsOrDefault (some 50) :=
  ⟨by decide, (fallback_items_per_item_budget poolOfTen (some 50) (by decide)).2.2.1⟩

lemma totalCost_cons (i : SelectedItem) (l : List SelectedItem) :
    totalCost (i :: l) = (i.quantity : ℚ) * i.unit_price + totalCost l := by
  simp [totalCost]

lemma runningAfter_eq (items : List SelectedItem) :
    ∀ start : ℚ, runningAfter items start = start - totalCost items := by
  induction items with
  | nil => intro start; simp [runningAfter, totalCost]
  | cons i rest ih =>
    intro start
    have hrec := ih (start - (i.quantity : ℚ) * i.unit_price)
    simp only [runningAfter, List.foldl_cons] at hrec ⊢
    rw [hrec, totalCost_cons]
    ring

lemma paymentSteps_balance (items : List SelectedItem) :
    ∀ (start : ℚ) (i : ℕ), i < items.length →
      ((paymentSteps items start).getD i defaultPayStep).balanceAfter
        = start - totalCost (items.take (i + 1)) := by
  induction items with
  | nil => intro start i h; simp at h
  | cons it rest ih =>
    intro start i h
    cases i with
    | zero =>
      simp [paymentSteps, totalCost]
    | succ i0 =>
      have h0 : i0 < rest.length := Nat.lt_of_succ_lt_succ h
      simp only [paymentSteps, List.getD_cons_succ, List.take_succ_cons]
      rw [ih _ i0 h0, totalCost_cons]
      ring

/-- C9: the payment replay records the starting balance at step 0, the
balance after step `i` is the starting balance minus the sum of
`quantity × unit_price` over the first `i` items, and the reported total
spent equals the sum of all line totals (a pure computation of its
inputs). -/
theorem paymentSteps_ledger (items : List SelectedItem) (start : ℚ) :
    (ledgerBalances items start).headD 0 = start ∧
    (paymentSteps items start).length = items.length ∧
    (∀ i, i < items.length →
      ((paymentSteps items start).getD i defaultPayStep).balanceAfter
        = start - totalCost (items.take (i + 1))) ∧
    totalSpent items start = totalCost items := by
  refine ⟨rfl, ?_, fun i h => paymentSteps_balance items start i h, ?_⟩
  · induction items generalizing start with
    | nil => rfl
    | cons it rest ih => simp [paymentSteps, ih]
  · unfold totalSpent
    rw [runningAfter_eq items start]
    ring

/-- Witness for C9 at a single concrete item (quantity 2, price 3,
starting balance 10). -/
theorem paymentSteps_ledger_witness :
    ((paymentSteps [⟨"A", "pen", 2, 3, "r", "l"⟩] 10).getD 0 defaultPayStep).balanceAfter
      = 10 - totalCost [⟨"A", "pen", 2, 3, "r", "l"⟩] :=
  (paymentSteps_ledger [⟨"A", "pen", 2, 3, "r", "l"⟩] 10).2.2.1 0 (by decide)

/-- C10: a budget string that fails to parse (`NaN`) or parses to zero is
replaced by 200 at both call sites — the handler's `fundsNum` used for
unfound-item allocation and the Selector's `funds` — while a negative
parsed budget is passed through unchanged. -/
theorem fundsOrDefault_spec (p : Option ℚ) :
    fundsNum p = fundsOrDefault p ∧
    ((p = none ∨ p = some 0) → fundsNum p = 200 ∧ fundsOrDefault p = 200) ∧
    (∀ v : ℚ, v < 0 → fundsNum (some v) = v ∧ fundsOrDefault (some v) = v) := by
  refine ⟨?_, ?_, ?_⟩
  · cases p with
    | none => rfl
    | some v => rfl
  · rintro (rfl | rfl)
    · exact ⟨rfl, rfl⟩
    · constructor <;> simp [fundsNum, fundsOrDefault]
  · intro v hv
    have hne : v ≠ 0 := ne_of_lt hv
    constructor <;> simp [fundsNum, fundsOrDefault, hne]

/-- Witness for C10 at a failed parse and at the negative budget −5. -/
theorem fundsOrDefault_spec_witness :
    (fundsNum none = 200 ∧ fundsOrDefault none = 200) ∧
    (fundsNum (some (-5)) = -5 ∧ fundsOrDefault (some (-5)) = -5) :=
  ⟨(fundsOrDefault_spec none).2.1 (Or.inl rfl),
   (fundsOrDefault_spec (some (-5))).2.2 (-5) (by norm_num)⟩

lemma priceValue_pos (cs : List Char) (p : ℚ) (h : priceValue cs = some p) :
    0 < p := by
  simp only [priceValue] at h
  split at h <;> split_ifs at h <;>
    (simp only [Option.some.injEq] at h; subst h; assumption)

lemma findPrice_pos : ∀ (cs : List Char) (p : ℚ), findPrice cs = some p → 0 < p := by
  intro cs
  induction cs with
  | nil => intro p h; simp [findPrice] at h
  | cons c rest ih =>
    intro p h
    rw [findPrice] at h
    split_ifs at h
    · exact priceValue_pos rest p h
    · exact ih p h

lemma parsePriceFromText_pos (s : String) (p : ℚ)
    (h : parsePriceFromText s = some p) : 0 < p :=
  findPrice_pos s.data p h

lemma orElse3_pos (a b c : Option ℚ)
    (ha : ∀ p, a = some p → 0 < p) (hb : ∀ p, b = some p → 0 < p)
    (hc : ∀ p, c = some p → 0 < p) (p : ℚ) (h : (a <|> b <|> c) = some p) :
    0 < p := by
  cases a with
  | some v =>
    rw [Option.some_orElse] at h
    exact ha p h
  | none =>
    rw [Option.none_orElse] at h
    cases b with
    | some v =>
      rw [Option.some_orElse] at h
      exact hb p h
    | none =>
      rw [Option.none_orElse] at h
      exact hc p h

lemma recoveredPrice_pos (srs : List RawResult) (q : String) (p : ℚ)
    (h : recoveredPrice srs q = some p) : 0 < p := by
  simp only [recoveredPrice] at h
  refine orElse3_pos _ _ _ ?_ ?_ ?_ p h
  · intro v hv
    obtain ⟨s, _, hs⟩ := Option.bind_eq_some.mp hv
    exact parsePriceFromText_pos s v hs
  · intro v hv
    exact parsePriceFromText_pos _ v hv
  · intro v hv
    exact parsePriceFromText_pos _ v hv

lemma buildStep_none (r : ℚ) (q : String) (srs : List RawResult)
    (h : recoveredPrice srs q = none) :
    (buildStep r q srs).1.quantity = 1 ∧ (buildStep r q srs).2 = r := by
  simp [buildStep, h]

lemma buildStep_some (r : ℚ) (q : String) (srs : List RawResult) (p : ℚ)
    (h : recoveredPrice srs q = some p) :
    buildStep r q srs =
      ({ query := q, product_name := unfoundName srs q, unit_price := some p
         quantity := min 99 (max 1 ⌊r / p⌋)
         line_total := some (((min 99 (max 1 ⌊r / p⌋) : ℤ) : ℚ) * p) },
       r - ((min 99 (max 1 ⌊r / p⌋) : ℤ) : ℚ) * p) := by
  have hq1 : (1 : ℤ) ≤ min 99 (max 1 ⌊r / p⌋) :=
    le_min (by norm_num) (le_max_left 1 _)
  simp only [buildStep, h]
  rw [if_pos (by omega : (0 : ℤ) < min 99 (max 1 ⌊r / p⌋))]

lemma buildStep_nonneg (r : ℚ) (q : String) (srs : List RawResult)
    (hr : 0 ≤ r) (hsafe : ∀ p, recoveredPrice srs q = some p → p ≤ r) :
    0 ≤ (buildStep r q srs).2 := by
  cases hp : recoveredPrice srs q with
  | none => rw [(buildStep_none r q srs hp).2]; exact hr
  | some p =>
    have hppos := recoveredPrice_pos srs q p hp
    have hple := hsafe p hp
    rw [buildStep_some r q srs p hp]
    have hfl : (1 : ℤ) ≤ ⌊r / p⌋ :=
      Int.le_floor.mpr (by push_cast; exact (one_le_div hppos).mpr hple)
    have hmax : max 1 ⌊r / p⌋ = ⌊r / p⌋ := max_eq_right hfl
    simp only [hmax]
    have h1 : ((min 99 ⌊r / p⌋ : ℤ) : ℚ) ≤ ((⌊r / p⌋ : ℤ) : ℚ) := by
      exact_mod_cast min_le_right (99 : ℤ) _
    have h2 : ((⌊r / p⌋ : ℤ) : ℚ) ≤ r / p := Int.floor_le _
    have h3 : ((min 99 ⌊r / p⌋ : ℤ) : ℚ) * p ≤ r / p * p :=
      mul_le_mul_of_nonneg_right (h1.trans h2) hppos.le
    rw [div_mul_cancel₀ r hppos.ne'] at h3
    linarith

lemma pool_nonneg :
    ∀ (qs : List String) (raws : List (List RawResult)) (r : ℚ),
      0 ≤ r → poolSafe qs raws r = true → 0 ≤ remainingAfter qs raws r := by
  intro qs
  induction qs with
  | nil => intro raws r hr _; simpa [remainingAfter, buildUnfoundAux] using hr
  | cons q rest ih =>
    intro raws r hr hsafe
    simp only [poolSafe, Bool.and_eq_true] at hsafe
    obtain ⟨hhead, htail⟩ := hsafe
    have hstep : 0 ≤ (buildStep r q (raws.headD [])).2 := by
      apply buildStep_nonneg _ _ _ hr
      intro p hp
      rw [hp] at hhead
      exact of_decide_eq_true hhead
    have htailnn := ih raws.tail _ hstep htail
    simpa [remainingAfter, buildUnfoundAux] using htailnn

/-- C2 (amended): when a price is recovered the quantity is
`floor(remaining / price)` clamped to `[1, 99]` and `quantity × price` is
always debited — the `quantity > 0` guard is vacuous since the clamp
forces `quantity ≥ 1` — so when the price exceeds the remaining budget
the quantity is 1 and the full price is still debited, which can drive
the pool negative; the pool stays non-negative exactly on runs where
every recovered price is at most the pool remaining at its step. -/
theorem unfound_budget_allocation (r : ℚ) (q : String) (srs : List RawResult)
    (qs : List String) (raws : List (List RawResult)) (r₀ : ℚ)
    (h₀ : 0 ≤ r₀) (hsafe : poolSafe qs raws r₀ = true) :
    (∀ p, recoveredPrice srs q = some p →
      0 < p ∧
      (buildStep r q srs).1.quantity = min 99 (max 1 ⌊r / p⌋) ∧
      1 ≤ (buildStep r q srs).1.quantity ∧
      (buildStep r q srs).1.quantity ≤ 99 ∧
      (buildStep r q srs).2 = r - ((buildStep r q srs).1.quantity : ℚ) * p ∧
      (r < p → (buildStep r q srs).1.quantity = 1 ∧ (buildStep r q srs).2 = r - p)) ∧
    (recoveredPrice srs q = none →
      (buildStep r q srs).1.quantity = 1 ∧ (buildStep r q srs).2 = r) ∧
    0 ≤ remainingAfter qs raws r₀ := by
  refine ⟨?_, buildStep_none r q srs, pool_nonneg qs raws r₀ h₀ hsafe⟩
  intro p hp
  have hppos := recoveredPrice_pos srs q p hp
  have heq := buildStep_some r q srs p hp
  have hq1 : (1 : ℤ) ≤ min 99 (max 1 ⌊r / p⌋) :=
    le_min (by norm_num) (le_max_left 1 _)
  refine ⟨hppos, by rw [heq], by rw [heq]; exact hq1,
    by rw [heq]; exact min_le_left _ _, by rw [heq], ?_⟩
  intro hlt
  have hfl : ⌊r / p⌋ < 1 := Int.floor_lt.mpr (by
    push_cast
    exact (div_lt_one hppos).mpr hlt)
  have hmax : max 1 ⌊r / p⌋ = 1 := max_eq_left (by omega)
  rw [heq]
  simp only [hmax]
  norm_num

/-- Counterexample to C2 as stated: one unfound query whose first raw
result prices at `$20.00` against a remaining budget of 10 — the
recovered price exceeds the budget, yet the full price is debited and
the shared pool ends at −10, which is negative. -/
theorem unfound_pool_goes_negative_cex :
    buildUnfoundItems ["y"] [[rawPriced20]] 10
      = [{ query := "y", product_name := "Widget", unit_price := some 20
           quantity := 1, line_total := some 20 }] ∧
    remainingAfter ["y"] [[rawPriced20]] 10 = -10 ∧
    ¬ 0 ≤ remainingAfter ["y"] [[rawPriced20]] 10 := by
  refine ⟨?_, ?_, ?_⟩ <;> decide

/-- Witness for C2 at a run whose single recovered price `$30.00` fits in
the starting pool of 100 (quantity 3, debit 90, remaining 10 ≥ 0). -/
theorem unfound_budget_allocation_witness :
    0 ≤ remainingAfter ["x"] [[rawSnippet30]] 100 :=
  (unfound_budget_allocation 0 "" [] ["x"] [[rawSnippet30]] 100
    (by decide) (by decide)).2.2

end Trace
